import Mathlib

/-!
Shallow embedding of the link-routing and thread-consolidation bot
(`src/bot.js`) and proofs about the claims of its specification.

Text is modelled as `List Char` (JS strings), platform snowflake ids as
`String`, timestamps as `Int` (milliseconds since the epoch, as returned
by `Date.getTime`).  Platform I/O is modelled by traces of events; the
only failure mode the claims depend on (a relocation send throwing) is
modelled by an oracle `sendOk : Category → Bool`.
-/

namespace LinkBot

/-- The three routing categories of `CATEGORIES` in `src/bot.js`. -/
inductive Category where
  | youtube
  | steam
  | other
deriving DecidableEq, Repr

/-- Static per-category configuration (`CATEGORIES` object). -/
structure CatConfig where
  color : Nat
  icon : List Char
  title : List Char
  channelName : List Char
  topic : List Char
deriving DecidableEq, Repr

/-- The `CATEGORIES` table of `src/bot.js` (display strings abbreviated to
their ASCII parts; the emoji icons are irrelevant to every claim). -/
def CATEGORIES : Category → CatConfig
  | .youtube =>
    { color := 0xff0000, icon := "[yt]".data, title := "YouTube Link".data,
      channelName := "youtube".data,
      topic := "YouTube links only".data }
  | .steam =>
    { color := 0x1b2838, icon := "[st]".data, title := "Steam Store Link".data,
      channelName := "games".data,
      topic := "Steam links only".data }
  | .other =>
    { color := 0x3498db, icon := "[ln]".data, title := "Links".data,
      channelName := "links-channel".data,
      topic := "Links only".data }

/-- A chat user as the bot reads it (`message.author`). -/
structure User where
  id : String
  displayName : Option (List Char)
  username : List Char
  avatar : String
deriving DecidableEq, Repr

/-- A message attachment (`message.attachments` entries). -/
structure Attachment where
  url : String
  name : List Char
deriving DecidableEq, Repr

/-- Channel types we distinguish (`ChannelType.GuildText` vs the rest). -/
inductive ChanType where
  | text
  | voice
deriving DecidableEq, Repr

/-- A guild channel as `ensureChannel` inspects it. -/
structure Channel where
  id : String
  name : List Char
  ctype : ChanType
deriving DecidableEq, Repr

/-- A guild: its channel cache (`guild.channels.cache`), in cache order. -/
structure Guild where
  channels : List Channel
deriving DecidableEq, Repr

/-- The module-level mutable configuration of `src/bot.js`:
the three `*_CHANNEL_ID` variables and the `destinationChannels` cache.
Note there is exactly one slot per category — nothing is keyed by guild. -/
structure Cfg where
  ytId : String
  stId : String
  lnId : String
  destYt : Option Channel
  destSt : Option Channel
  destLn : Option Channel
deriving DecidableEq, Repr

/-- `getDestinationId` of `src/bot.js`. -/
def getDestinationId (c : Cfg) : Category → String
  | .youtube => c.ytId
  | .steam => c.stId
  | .other => c.lnId

/-- The `destinationChannels` cache lookup. -/
def destinationChannel (c : Cfg) : Category → Option Channel
  | .youtube => c.destYt
  | .steam => c.destSt
  | .other => c.destLn

/-- `isDestinationChannel` of `src/bot.js`:
`[YOUTUBE_CHANNEL_ID, STEAM_CHANNEL_ID, LINKS_CHANNEL_ID].includes(id)`. -/
def isDestinationChannel (c : Cfg) (id : String) : Bool :=
  id == c.ytId || id == c.stId || id == c.lnId

/-- Set the per-category `*_CHANNEL_ID` variable (`updateEnvId`). -/
def setEnvId (c : Cfg) (cat : Category) (id : String) : Cfg :=
  match cat with
  | .youtube => { c with ytId := id }
  | .steam => { c with stId := id }
  | .other => { c with lnId := id }

/-- Set the per-category `destinationChannels` cache slot. -/
def setDest (c : Cfg) (cat : Category) (ch : Channel) : Cfg :=
  match cat with
  | .youtube => { c with destYt := some ch }
  | .steam => { c with destSt := some ch }
  | .other => { c with destLn := some ch }

/-! ### The regular expressions

`YOUTUBE_REGEX` and `STEAM_REGEX` are unanchored case-insensitive tests.
Since their trailing path group `(\/\S*)?` can match the empty string, a
subject matches iff it contains (case-insensitively) one of finitely many
mandatory-prefix strings `scheme ++ optional www. ++ host`. -/

/-- ASCII lower-casing of one character (model of the `/i` regex flag). -/
def asciiLower (c : Char) : Char :=
  if 65 ≤ c.toNat ∧ c.toNat ≤ 90 then Char.ofNat (c.toNat + 32) else c

/-- ASCII lower-casing of a string. -/
def lower (s : List Char) : List Char := s.map asciiLower

/-- Substring containment test (`pat` occurs contiguously in the subject). -/
def containsSub (pat : List Char) : List Char → Bool
  | [] => pat.isEmpty
  | c :: rest => pat.isPrefixOf (c :: rest) || containsSub pat rest

/-- The mandatory-prefix strings of `YOUTUBE_REGEX`:
`https?://(www\.)?(youtube\.com|youtu\.be|m\.youtube\.com)`. -/
def ytCores : List (List Char) :=
  ["http://youtube.com", "http://youtu.be", "http://m.youtube.com",
   "http://www.youtube.com", "http://www.youtu.be", "http://www.m.youtube.com",
   "https://youtube.com", "https://youtu.be", "https://m.youtube.com",
   "https://www.youtube.com", "https://www.youtu.be",
   "https://www.m.youtube.com"].map String.data

/-- The mandatory-prefix strings of `STEAM_REGEX`:
`https?://(store\.steampowered\.com)`. -/
def stCores : List (List Char) :=
  ["http://store.steampowered.com",
   "https://store.steampowered.com"].map String.data

/-- `YOUTUBE_REGEX.test(s)`. -/
def youtubeTest (s : List Char) : Bool :=
  ytCores.any (fun core => containsSub core (lower s))

/-- `STEAM_REGEX.test(s)`. -/
def steamTest (s : List Char) : Bool :=
  stCores.any (fun core => containsSub core (lower s))

/-- `categorizeUrl` of `src/bot.js`: YouTube test first, Steam test second,
everything else is `other`. -/
def categorizeUrl (url : List Char) : Category :=
  if youtubeTest url then .youtube
  else if steamTest url then .steam
  else .other

/-! ### URL extraction

`URL_REGEX = /https?:\/\/[^\s<>"{}|\\^`[\]]+/gi` — a scheme followed by one
or more characters outside the excluded class.  `content.match` returns the
leftmost non-overlapping greedy matches. -/

/-- The excluded character class of `URL_REGEX`: ASCII whitespace
(with NBSP), double quote, angle brackets, square brackets, braces,
pipe, backslash, caret and backtick, written by code point. -/
def urlExcluded (c : Char) : Bool :=
  [9, 10, 11, 12, 13, 32, 160, 34, 60, 62, 91, 92, 93, 94, 96,
   123, 124, 125].contains c.toNat

/-- A character admissible inside an extracted URL. -/
def urlChar (c : Char) : Bool := !urlExcluded c

/-- Try to read `https?://` (case-insensitively) at the head of the input,
returning the scheme characters as written and the remainder. -/
def schemeSplit (cs : List Char) : Option (List Char × List Char) :=
  if ("https://".data).isPrefixOf (lower cs) then some (cs.take 8, cs.drop 8)
  else if ("http://".data).isPrefixOf (lower cs) then some (cs.take 7, cs.drop 7)
  else none

/-- Scanner for `content.match(URL_REGEX)`; `fuel` bounds the number of
scanning steps (each step consumes at least one character). -/
def extractAux : Nat → List Char → List (List Char)
  | 0, _ => []
  | _ + 1, [] => []
  | fuel + 1, c :: rest =>
    match schemeSplit (c :: rest) with
    | some (sch, tail) =>
      let run := tail.takeWhile urlChar
      if run.isEmpty then extractAux fuel rest
      else (sch ++ run) :: extractAux fuel (tail.dropWhile urlChar)
    | none => extractAux fuel rest

/-- `content.match(URL_REGEX) || []` — all URLs extracted from a text. -/
def extractUrls (cs : List Char) : List (List Char) :=
  extractAux cs.length cs

/-! ### Grouping by category -/

/-- Append a URL to its category group, preserving first-occurrence key
order and per-category input order (JS object insertion order). -/
def insertGroup (acc : List (Category × List (List Char))) (cat : Category)
    (url : List Char) : List (Category × List (List Char)) :=
  if acc.any (fun g => g.1 == cat) then
    acc.map (fun g => if g.1 == cat then (g.1, g.2 ++ [url]) else g)
  else acc ++ [(cat, [url])]

/-- The `grouped` object built by the router and the backfill scanner. -/
def groupByCategory (urls : List (List Char)) :
    List (Category × List (List Char)) :=
  urls.foldl (fun acc url => insertGroup acc (categorizeUrl url) url) []

/-! ### Embed composer -/

/-- A composed summary-record embed (`buildLinkEmbed` output), with the
description string represented by its structured components in order. -/
structure Embed where
  color : Nat
  authorName : List Char
  authorIcon : String
  title : List Char
  urls : List (List Char)
  postedById : String
  fromChannel : Option String
  originalDate : Option Int
  footer : List Char
  thumbnail : String
  timestamp : Int
deriving DecidableEq, Repr

/-- The fixed call-to-action footer. -/
def footerText : List Char := "Create a thread on this message to discuss!".data

/-- `buildLinkEmbed(category, urls, user, sourceChannel, timestamp)`;
`now` stands for `new Date()` at composition time. -/
def buildLinkEmbed (cat : Category) (urls : List (List Char)) (u : User)
    (sourceChannel : Option String) (timestamp : Option Int) (now : Int) :
    Embed :=
  let config := CATEGORIES cat
  { color := config.color,
    authorName := u.displayName.getD u.username,
    authorIcon := u.avatar,
    title := config.icon ++ (' ' :: config.title),
    urls := urls,
    postedById := u.id,
    fromChannel := sourceChannel,
    originalDate := timestamp,
    footer := footerText,
    thumbnail := u.avatar,
    timestamp := timestamp.getD now }

/-! ### Thread consolidator (`getOrCreateLatestThread`)

The destination room's recent window (`messages.fetch({limit: 50})`,
newest first), the platform's thread table (thread id → archived flag;
absence means the thread was deleted), and a fresh-id counter. -/

/-- A message of the fetched window, with the fields the consolidator
reads: author-is-bot-itself, `embeds.length`, and its thread if any. -/
structure WMsg where
  id : Nat
  authorSelf : Bool
  embedCount : Nat
  threadId : Option Nat
deriving DecidableEq, Repr

/-- State of a destination room as the consolidator sees it. -/
structure ChannelState where
  window : List WMsg
  threads : List (Nat × Bool)
  nextTid : Nat
deriving DecidableEq, Repr

/-- Look a thread up by id; `some archived` if it exists. -/
def lookupThread (ts : List (Nat × Bool)) (tid : Nat) : Option Bool :=
  (ts.find? (fun p => p.1 == tid)).map (fun p => p.2)

/-- `thread.setArchived(false)`. -/
def setArchivedFalse (ts : List (Nat × Bool)) (tid : Nat) :
    List (Nat × Bool) :=
  ts.map (fun p => if p.1 == tid then (p.1, false) else p)

/-- The predicate of the `recentMessages.find` call: authored by the bot
itself and carrying at least one embed. -/
def anchorPred (m : WMsg) : Bool := m.authorSelf && m.embedCount != 0

/-- `latestEmbed.startThread(...)`: create a fresh thread on the anchor
message (thread naming is display-only and not modelled). -/
def createThreadOn (st : ChannelState) (m : WMsg) :
    Option Nat × ChannelState :=
  let tid := st.nextTid
  (some tid,
   { window := st.window.map
       (fun w => if w.id == m.id then { w with threadId := some tid } else w),
     threads := st.threads ++ [(tid, false)],
     nextTid := st.nextTid + 1 })

/-- `getOrCreateLatestThread(channel)` of `src/bot.js`: find the most
recent bot-authored embed message; return `none` if there is none;
reuse its live thread (un-archiving if archived); create a new thread
when it has none or its thread was deleted (the `catch` path). -/
def getOrCreateLatestThread (st : ChannelState) : Option Nat × ChannelState :=
  match st.window.find? anchorPred with
  | none => (none, st)
  | some m =>
    match m.threadId with
    | some tid =>
      match lookupThread st.threads tid with
      | some false => (some tid, st)
      | some true => (some tid, { st with threads := setArchivedFalse st.threads tid })
      | none => createThreadOn st m
    | none => createThreadOn st m

/-! ### Destination registry (`ensureChannel`)

`enforceStrictPermissions` only edits permission overwrites and swallows
its own failures (log-only); no claim depends on it, so it is not part of
the state model.  Channel creation is modelled by supplying the id the
platform would mint (`freshId`). -/

/-- The channel object `guild.channels.create` returns for a category:
the platform-minted id, the preferred name, text type. -/
def mkChannel (f : String) (cat : Category) : Channel :=
  ⟨f, (CATEGORIES cat).channelName, ChanType.text⟩

/-- The fallback path of `ensureChannel`: search by the category's
preferred name among text channels, else create a fresh channel with
that name. -/
def fallbackResolve (st : Cfg) (g : Guild) (cat : Category)
    (freshId : String) : Channel × Cfg × Guild :=
  match g.channels.find?
      (fun ch => ch.name == (CATEGORIES cat).channelName &&
        ch.ctype == ChanType.text) with
  | some byName => (byName, setDest (setEnvId st cat byName.id) cat byName, g)
  | none =>
    let created : Channel := mkChannel freshId cat
    (created, setDest (setEnvId st cat freshId) cat created,
     { g with channels := g.channels ++ [created] })

/-- `ensureChannel(guild, category)` of `src/bot.js`.  Returns the
resolved channel, the updated module-level configuration (env ids and
`destinationChannels` cache) and the updated guild.  Channel creation is
modelled by supplying the id the platform would mint (`freshId`). -/
def ensureChannel (st : Cfg) (g : Guild) (cat : Category) (freshId : String) :
    Channel × Cfg × Guild :=
  let envId := getDestinationId st cat
  if 10 < envId.length then
    match g.channels.find? (fun ch => ch.id == envId) with
    | some existing => (existing, setDest st cat existing, g)
    | none => fallbackResolve st g cat freshId
  else fallbackResolve st g cat freshId

/-! ### Live router (`messageCreate` handler) -/

/-- A delivered message as the handler reads it. -/
structure Msg where
  authorBot : Bool
  author : User
  inGuild : Bool
  inThread : Bool
  channelId : String
  channelName : List Char
  content : List Char
  createdAt : Int
  attachments : List Attachment
deriving DecidableEq, Repr

/-- `author.displayName || author.username`. -/
def authorDisplay (u : User) : List Char := u.displayName.getD u.username

/-- Observable platform effects of processing one live message.
Notices carry their self-deletion delay in milliseconds. -/
inductive Event where
  | sendEmbed (destId : String) (embed : Embed)
  | deleteOriginal
  | repostInThread (tid : Nat) (authorName : List Char) (content : List Char)
      (files : List Attachment)
  | redirectNotice (channelId : String) (ttl : Nat)
  | noThreadNotice (channelId : String) (ttl : Nat)
  | privateWarning (channelId : String) (ttl : Nat)
  | routeNotice (channelId : String) (entries : List (Category × String)) (ttl : Nat)
deriving DecidableEq, Repr

/-- Is this event a summary-record relocation send? -/
def isSendEmbed : Event → Bool
  | .sendEmbed _ _ => true
  | _ => false

/-- The embeds of the relocation sends of a trace, in order. -/
def sendEmbeds (tr : List Event) : List Embed :=
  tr.filterMap (fun e => match e with
    | .sendEmbed _ emb => some emb
    | _ => none)

/-- Result of the relocation loop: emitted events, the `routed` list, and
whether a send threw (an uncaught rejection aborts the handler). -/
structure RouteResult where
  events : List Event
  routed : List (Category × String)
  aborted : Bool
deriving DecidableEq, Repr

/-- The `for (const [category, urls] of toRoute)` loop of the handler:
skip categories with no resolved destination channel; otherwise send the
composed embed to the destination — a throwing send aborts everything
after it. -/
def routeLoop (cfg : Cfg) (msg : Msg) (sendOk : Category → Bool) :
    List (Category × List (List Char)) → RouteResult
  | [] => ⟨[], [], false⟩
  | (cat, urls) :: rest =>
    match destinationChannel cfg cat with
    | none => routeLoop cfg msg sendOk rest
    | some ch =>
      if sendOk cat then
        let r := routeLoop cfg msg sendOk rest
        ⟨.sendEmbed ch.id
            (buildLinkEmbed cat urls msg.author (some msg.channelId)
              (some msg.createdAt) msg.createdAt) :: r.events,
         (cat, ch.id) :: r.routed, r.aborted⟩
      else ⟨[], [], true⟩

/-- The strict-enforcement branch for designated destination rooms:
delete the original, then either repost it into the active thread plus a
10s redirect notice, or post a 15s "nothing to discuss yet" notice. -/
def strictBranch (chan : ChannelState) (msg : Msg) : List Event :=
  Event.deleteOriginal ::
  match (getOrCreateLatestThread chan).1 with
  | some tid =>
    [Event.repostInThread tid (authorDisplay msg.author) msg.content
       msg.attachments,
     Event.redirectNotice msg.channelId 10000]
  | none => [Event.noThreadNotice msg.channelId 15000]

/-- The `toRoute` constant of the handler: the category groups of the
message whose configured destination id differs from the current room. -/
def toRoute (cfg : Cfg) (msg : Msg) : List (Category × List (List Char)) :=
  (groupByCategory (extractUrls msg.content)).filter
    (fun g => getDestinationId cfg g.1 != msg.channelId)

/-- The `messageCreate` handler of `src/bot.js` as a trace function.
`now` stands for `new Date()` (unused on these paths since the live
handler always passes `message.createdAt` to the composer). -/
def liveRouter (cfg : Cfg) (chan : ChannelState) (msg : Msg)
    (sendOk : Category → Bool) (_now : Int) : List Event :=
  if msg.authorBot then []
  else if !msg.inGuild then []
  else if msg.inThread then []
  else if isDestinationChannel cfg msg.channelId then strictBranch chan msg
  else if (extractUrls msg.content).isEmpty then []
  else if containsSub ("-private".data) msg.channelName then
    [Event.deleteOriginal, Event.privateWarning msg.channelId 10000]
  else if (toRoute cfg msg).isEmpty then []
  else
    let r := routeLoop cfg msg sendOk (toRoute cfg msg)
    if r.aborted then r.events
    else if r.routed.isEmpty then r.events
    else r.events ++
      [Event.deleteOriginal, Event.routeNotice msg.channelId r.routed 10000]

/-- No relocation send occurs after a deletion anywhere in the trace. -/
def noSendAfterDel : List Event → Bool
  | [] => true
  | .deleteOriginal :: rest =>
    rest.all (fun e => !isSendEmbed e) && noSendAfterDel rest
  | _ :: rest => noSendAfterDel rest

/-! ### Backfill scanner (`backfillGuild`, inner per-channel loop) -/

/-- `BACKFILL_AFTER = new Date('2026-01-01T00:00:00Z')` in epoch ms. -/
def BACKFILL_AFTER : Int := 1767225600000

/-- Observable effects of the backfill scan, tagged with the scanned
source message. -/
inductive BEvent where
  | send (m : Msg) (cat : Category) (destId : String) (embed : Embed)
  | del (m : Msg)
deriving DecidableEq, Repr

/-- The source message an event refers to. -/
def beMsg : BEvent → Msg
  | .send m _ _ _ => m
  | .del m => m

/-- The `for (const [category, catUrls] of Object.entries(grouped))` loop:
send one embed per group whose destination exists and differs from the
channel being scanned; the boolean is `movedThisMsg`. -/
def sendGroupsB (cfg : Cfg) (chanId : String) (m : Msg) (now : Int) :
    List (Category × List (List Char)) → List BEvent × Bool
  | [] => ([], false)
  | (cat, urls) :: rest =>
    let r := sendGroupsB cfg chanId m now rest
    match destinationChannel cfg cat with
    | none => r
    | some dch =>
      if dch.id == chanId then r
      else
        (BEvent.send m cat dch.id
           (buildLinkEmbed cat urls m.author (some chanId)
             (some m.createdAt) now) :: r.1, true)

/-- The `for (const [, msg] of messages)` loop over one fetched page:
stop the whole scan at the first message older than the cutoff, skip bot
messages and link-free messages, relocate the rest and delete originals
that moved.  The boolean is `reachedCutoff`. -/
def processPage (cfg : Cfg) (chanId : String) (now : Int) :
    List Msg → List BEvent × Bool
  | [] => ([], false)
  | m :: rest =>
    if m.createdAt < BACKFILL_AFTER then ([], true)
    else if m.authorBot then processPage cfg chanId now rest
    else
      let urls := extractUrls m.content
      if urls.isEmpty then processPage cfg chanId now rest
      else
        let g := sendGroupsB cfg chanId m now (groupByCategory urls)
        let tail := processPage cfg chanId now rest
        (g.1 ++ (if g.2 then [BEvent.del m] else []) ++ tail.1, tail.2)

/-- The `while (!reachedCutoff)` pagination loop of `backfillGuild` for
one channel, the successive fetch results given as pages (newest first):
an empty page or a page that reached the cutoff ends the scan. -/
def backfillChannel (cfg : Cfg) (chanId : String) (now : Int) :
    List (List Msg) → List BEvent
  | [] => []
  | page :: rest =>
    if page.isEmpty then []
    else
      let r := processPage cfg chanId now page
      r.1 ++ (if r.2 then [] else backfillChannel cfg chanId now rest)

/-! ### Concrete fixtures used by witnesses and counterexamples -/

/-- A sample user. -/
def exUser : User := ⟨"u1", none, "alice".data, "av"⟩

/-- A fully resolved configuration with the three destination rooms. -/
def exCfg : Cfg :=
  { ytId := "111111111111", stId := "222222222222", lnId := "333333333333",
    destYt := some ⟨"111111111111", "youtube".data, .text⟩,
    destSt := some ⟨"222222222222", "games".data, .text⟩,
    destLn := some ⟨"333333333333", "links-channel".data, .text⟩ }

/-- An unconfigured startup configuration (all env ids blank). -/
def exCfgEmpty : Cfg := ⟨"", "", "", none, none, none⟩

/-- An empty destination-room state (no summary records yet). -/
def exChanEmpty : ChannelState := ⟨[], [], 0⟩

/-- A destination-room state holding one bot summary record without a
thread. -/
def exChanAnchored : ChannelState := ⟨[⟨4, true, 1, none⟩], [], 9⟩

/-- A non-bot message posted directly in the YouTube destination room,
containing only a YouTube link. -/
def exMsgDest : Msg :=
  { authorBot := false, author := exUser, inGuild := true, inThread := false,
    channelId := "111111111111", channelName := "youtube".data,
    content := "https://youtu.be/a".data, createdAt := 42, attachments := [] }

/-- A non-bot message in an ordinary room mixing a YouTube and a Steam
link. -/
def exMsgGen : Msg :=
  { authorBot := false, author := exUser, inGuild := true, inThread := false,
    channelId := "999999999999", channelName := "general".data,
    content := "hi https://youtu.be/a and https://store.steampowered.com/app/9".data,
    createdAt := 42, attachments := [] }

/-! ### Helper lemmas -/

/-- A list is a `isPrefixOf` of itself followed by anything. -/
theorem isPrefixOf_append_self (p t : List Char) :
    p.isPrefixOf (p ++ t) = true := by
  induction p with
  | nil => simp [List.isPrefixOf]
  | cons a as ih => simp [List.isPrefixOf, ih]

/-- A pattern occurs in itself followed by anything. -/
theorem containsSub_append_self (p t : List Char) :
    containsSub p (p ++ t) = true := by
  cases p with
  | nil =>
    cases t with
    | nil => rfl
    | cons c r => simp [containsSub]
  | cons a as =>
    simp only [List.cons_append, containsSub, Bool.or_eq_true]
    exact Or.inl (isPrefixOf_append_self (a :: as) t)

/-- Characters of a `takeWhile urlChar` run are URL characters. -/
theorem urlChar_of_mem_takeWhile :
    ∀ (l : List Char) (c : Char), c ∈ l.takeWhile urlChar → urlChar c = true := by
  intro l
  induction l with
  | nil => intro c h; simp at h
  | cons a as ih =>
    intro c h
    by_cases ha : urlChar a = true
    · rw [List.takeWhile_cons, if_pos ha] at h
      rcases List.mem_cons.mp h with rfl | h
      · exact ha
      · exact ih c h
    · rw [List.takeWhile_cons, if_neg ha] at h
      simp at h

/-- A nonempty list has a last element that is a member. -/
theorem getLast?_mem_self (l : List Char) (h : l ≠ []) :
    ∃ c, l.getLast? = some c ∧ c ∈ l := by
  cases hrev : l.reverse with
  | nil => exact absurd (by simpa using congrArg List.reverse hrev) h
  | cons b bs =>
    refine ⟨b, ?_, ?_⟩
    · rw [← List.head?_reverse, hrev]; rfl
    · have : b ∈ l.reverse := by rw [hrev]; exact List.mem_cons_self b bs
      exact List.mem_reverse.mp this

/-- Appending on the left does not change the last element of a nonempty
right part. -/
theorem getLast?_append_right (l₁ l₂ : List Char) (h : l₂ ≠ []) :
    (l₁ ++ l₂).getLast? = l₂.getLast? := by
  rw [← List.head?_reverse, ← List.head?_reverse, List.reverse_append]
  cases hrev : l₂.reverse with
  | nil => exact absurd (by simpa using congrArg List.reverse hrev) h
  | cons b bs => simp

/-- Regex tests only look at the ASCII-lowered subject. -/
theorem youtubeTest_congr_lower {s t : List Char} (h : lower s = lower t) :
    youtubeTest s = youtubeTest t := by
  simp only [youtubeTest, h]

/-- C4: `categorizeUrl` is a pure total function that tries the YouTube
pattern first, the Steam pattern second (first match wins), sends every
unmatched URL to the default category, and classifies case variants
identically; any URL beginning with the YouTube host under either the
http or the https scheme is classified as YouTube. -/
theorem c4_classifier_priority_total_case (s t : List Char)
    (hcase : lower s = lower t) :
    (youtubeTest s = true → categorizeUrl t = Category.youtube) ∧
    (youtubeTest s = false → steamTest s = true →
      categorizeUrl s = Category.steam) ∧
    (youtubeTest s = false → steamTest s = false →
      categorizeUrl s = Category.other) ∧
    (∀ r : List Char,
      categorizeUrl ("http://youtu.be".data ++ r) = Category.youtube ∧
      categorizeUrl ("https://youtu.be".data ++ r) = Category.youtube) := by
  refine ⟨?_, ?_, ?_, ?_⟩
  · intro h
    have ht : youtubeTest t = true := (youtubeTest_congr_lower hcase) ▸ h
    simp [categorizeUrl, ht]
  · intro h1 h2
    simp [categorizeUrl, h1, h2]
  · intro h1 h2
    simp [categorizeUrl, h1, h2]
  · intro r
    have hyt : ∀ (core : List Char), core ∈ ytCores → lower core = core →
        core ≠ [] → youtubeTest (core ++ r) = true := by
      intro core hmem hlow _
      apply List.any_eq_true.mpr
      refine ⟨core, hmem, ?_⟩
      have : lower (core ++ r) = core ++ lower r := by
        simp only [lower, List.map_append]
        rw [show core.map asciiLower = core from hlow]
      rw [this]
      exact containsSub_append_self core (lower r)
    constructor
    · have h1 : youtubeTest ("http://youtu.be".data ++ r) = true :=
        hyt _ (by decide) (by decide) (by decide)
      unfold categorizeUrl
      rw [h1]
      simp
    · have h2 : youtubeTest ("https://youtu.be".data ++ r) = true :=
        hyt _ (by decide) (by decide) (by decide)
      unfold categorizeUrl
      rw [h2]
      simp

/-- Witness for C4 at concrete inputs: an upper-cased YouTube URL and its
lower-case variant both classify as YouTube. -/
theorem c4_witness :
    categorizeUrl ("https://www.youtube.com/W".data) = Category.youtube :=
  (c4_classifier_priority_total_case ("HTTPS://WWW.YOUTUBE.COM/w".data)
    ("https://www.youtube.com/W".data) (by decide)).1 (by decide)

/-- Every URL produced by `extractAux` ends in a character of the
admissible URL class. -/
theorem extractAux_last :
    ∀ (fuel : Nat) (cs u : List Char), u ∈ extractAux fuel cs →
      ∃ c, u.getLast? = some c ∧ urlChar c = true := by
  intro fuel
  induction fuel with
  | zero => intro cs u hu; simp [extractAux] at hu
  | succ n ih =>
    intro cs u hu
    cases cs with
    | nil => simp [extractAux] at hu
    | cons c rest =>
      rw [extractAux] at hu
      cases hss : schemeSplit (c :: rest) with
      | none =>
        rw [hss] at hu
        exact ih rest u hu
      | some pr =>
        obtain ⟨sch, tail⟩ := pr
        rw [hss] at hu
        simp only at hu
        by_cases hrun : (tail.takeWhile urlChar).isEmpty
        · rw [if_pos hrun] at hu
          exact ih rest u hu
        · rw [if_neg hrun] at hu
          rcases List.mem_cons.mp hu with rfl | hu
          · have hne : tail.takeWhile urlChar ≠ [] := by
              intro h0
              rw [h0] at hrun
              exact hrun rfl
            obtain ⟨ch, hlast, hmem⟩ := getLast?_mem_self _ hne
            refine ⟨ch, ?_, urlChar_of_mem_takeWhile tail ch hmem⟩
            rw [getLast?_append_right _ _ hne]
            exact hlast
          · exact ih _ u hu

/-- C9 counterexample: the extraction regex does not strip ordinary
trailing punctuation — a URL followed by a sentence-ending period is
extracted with the period, so an extracted URL can end in punctuation. -/
theorem c9_counterexample :
    extractUrls ("see https://ab.cd/e.".data) = ["https://ab.cd/e.".data] ∧
    ("https://ab.cd/e.".data).getLast? = some '.' := by
  constructor
  · rfl
  · rfl

/-- C9 amended: every extracted URL is nonempty and its final character
lies outside the excluded class of `URL_REGEX` (whitespace, double
quote, angle brackets, square brackets, braces, pipe, backslash, caret,
backtick) — but ordinary trailing punctuation such as a period is not
excluded and can end an extracted URL. -/
theorem c9_extracted_urls_last_char (text u : List Char)
    (hu : u ∈ extractUrls text) :
    ∃ c, u.getLast? = some c ∧ urlExcluded c = false := by
  obtain ⟨c, hlast, hchar⟩ := extractAux_last text.length text u hu
  refine ⟨c, hlast, ?_⟩
  simpa [urlChar] using hchar

/-- Witness for C9 at a concrete input. -/
theorem c9_witness :
    ∃ c, ("https://a.bc/d".data).getLast? = some c ∧ urlExcluded c = false :=
  c9_extracted_urls_last_char ("x https://a.bc/d".data) ("https://a.bc/d".data)
    (by decide)

/-- Every event of the per-message group loop refers to the scanned
message. -/
theorem sendGroupsB_msg (cfg : Cfg) (chanId : String) (m : Msg) (now : Int) :
    ∀ (l : List (Category × List (List Char))) (e : BEvent),
      e ∈ (sendGroupsB cfg chanId m now l).1 → beMsg e = m := by
  intro l
  induction l with
  | nil => intro e he; simp [sendGroupsB] at he
  | cons g rest ih =>
    intro e he
    obtain ⟨cat, urls⟩ := g
    rw [sendGroupsB] at he
    cases hd : destinationChannel cfg cat with
    | none =>
      rw [hd] at he
      exact ih e he
    | some dch =>
      rw [hd] at he
      simp only at he
      by_cases hc : (dch.id == chanId) = true
      · rw [if_pos hc] at he
        exact ih e he
      · rw [if_neg hc] at he
        rcases List.mem_cons.mp he with rfl | he
        · rfl
        · exact ih e he

/-- Every event of a page scan refers to a non-bot message not older than
the cutoff. -/
theorem processPage_event_msg (cfg : Cfg) (chanId : String) (now : Int) :
    ∀ (page : List Msg) (e : BEvent),
      e ∈ (processPage cfg chanId now page).1 →
      (beMsg e).authorBot = false ∧ BACKFILL_AFTER ≤ (beMsg e).createdAt := by
  intro page
  induction page with
  | nil => intro e he; simp [processPage] at he
  | cons m rest ih =>
    intro e he
    rw [processPage] at he
    by_cases hcut : m.createdAt < BACKFILL_AFTER
    · rw [if_pos hcut] at he
      simp at he
    · rw [if_neg hcut] at he
      by_cases hbot : m.authorBot = true
      · rw [if_pos hbot] at he
        exact ih e he
      · rw [if_neg hbot] at he
        by_cases hurls : (extractUrls m.content).isEmpty = true
        · rw [if_pos hurls] at he
          exact ih e he
        · rw [if_neg hurls] at he
          simp only [List.mem_append] at he
          rcases he with (he | he) | he
          · have := sendGroupsB_msg cfg chanId m now _ e he
            rw [this]
            exact ⟨Bool.eq_false_iff.mpr hbot, Int.not_lt.mp hcut⟩
          · by_cases hmv : (sendGroupsB cfg chanId m now
                (groupByCategory (extractUrls m.content))).2 = true
            · rw [if_pos hmv] at he
              rcases List.mem_singleton.mp he with rfl
              exact ⟨Bool.eq_false_iff.mpr hbot, Int.not_lt.mp hcut⟩
            · rw [if_neg hmv] at he
              simp at he
          · exact ih e he

/-- Every event of a whole channel scan comes from some page scan. -/
theorem backfillChannel_event_msg (cfg : Cfg) (chanId : String) (now : Int) :
    ∀ (pages : List (List Msg)) (e : BEvent),
      e ∈ backfillChannel cfg chanId now pages →
      (beMsg e).authorBot = false ∧ BACKFILL_AFTER ≤ (beMsg e).createdAt := by
  intro pages
  induction pages with
  | nil => intro e he; simp [backfillChannel] at he
  | cons page rest ih =>
    intro e he
    rw [backfillChannel] at he
    by_cases hemp : page.isEmpty = true
    · rw [if_pos hemp] at he
      simp at he
    · rw [if_neg hemp] at he
      simp only [List.mem_append] at he
      rcases he with he | he
      · exact processPage_event_msg cfg chanId now page e he
      · by_cases hrc : (processPage cfg chanId now page).2 = true
        · rw [if_pos hrc] at he
          simp at he
        · rw [if_neg hrc] at he
          exact ih e he

/-- A page whose first pre-cutoff message is `m` is processed exactly as
its prefix before `m`, and sets the cutoff flag. -/
theorem processPage_stops_at_cutoff (cfg : Cfg) (chanId : String) (now : Int) :
    ∀ (p₁ : List Msg) (m : Msg) (p₂ : List Msg),
      (∀ x ∈ p₁, ¬(x.createdAt < BACKFILL_AFTER)) →
      m.createdAt < BACKFILL_AFTER →
      processPage cfg chanId now (p₁ ++ m :: p₂) =
        ((processPage cfg chanId now p₁).1, true) := by
  intro p₁
  induction p₁ with
  | nil =>
    intro m p₂ _ hm
    simp only [List.nil_append]
    conv_lhs => rw [processPage]
    rw [if_pos hm]
    rfl
  | cons x p₁ ih =>
    intro m p₂ hall hm
    have hx : ¬(x.createdAt < BACKFILL_AFTER) :=
      hall x (List.mem_cons_self x p₁)
    have hrest : ∀ y ∈ p₁, ¬(y.createdAt < BACKFILL_AFTER) :=
      fun y hy => hall y (List.mem_cons_of_mem x hy)
    have ihm := ih m p₂ hrest hm
    simp only [List.cons_append]
    rw [processPage, if_neg hx]
    conv_rhs => rw [processPage, if_neg hx]
    by_cases hbot : x.authorBot = true
    · rw [if_pos hbot, if_pos hbot, ihm]
    · rw [if_neg hbot, if_neg hbot]
      by_cases hurls : (extractUrls x.content).isEmpty = true
      · rw [if_pos hurls, if_pos hurls, ihm]
      · rw [if_neg hurls, if_neg hurls]
        simp only [ihm]

/-- C10: bots are invisible to both pipelines — the live router does
nothing at all for a message authored by any bot account, and no
backfill relocation or deletion ever refers to a bot-authored message. -/
theorem c10_bot_messages_ignored :
    (∀ (cfg : Cfg) (chan : ChannelState) (msg : Msg)
        (sendOk : Category → Bool) (now : Int),
        msg.authorBot = true → liveRouter cfg chan msg sendOk now = []) ∧
    (∀ (cfg : Cfg) (chanId : String) (now : Int) (pages : List (List Msg))
        (e : BEvent), e ∈ backfillChannel cfg chanId now pages →
        (beMsg e).authorBot = false) := by
  constructor
  · intro cfg chan msg sendOk now h
    rw [liveRouter, if_pos h]
  · intro cfg chanId now pages e he
    exact (backfillChannel_event_msg cfg chanId now pages e he).1

/-- Witness for C10: a concrete bot-authored message with a YouTube link
in an ordinary room produces no events. -/
theorem c10_witness :
    liveRouter exCfg exChanEmpty
      { exMsgGen with authorBot := true } (fun _ => true) 0 = [] :=
  c10_bot_messages_ignored.1 exCfg exChanEmpty
    { exMsgGen with authorBot := true } (fun _ => true) 0 rfl

/-- C5: the backfill scanner never sends a summary record (nor deletes
an original) for a message older than the cutoff instant, and a room's
scan terminates at the first message in iteration order older than the
cutoff: everything after it in that page, and every later page, is left
untouched. -/
theorem c5_backfill_cutoff :
    (∀ (cfg : Cfg) (chanId : String) (now : Int) (pages : List (List Msg))
        (e : BEvent), e ∈ backfillChannel cfg chanId now pages →
        BACKFILL_AFTER ≤ (beMsg e).createdAt) ∧
    (∀ (cfg : Cfg) (chanId : String) (now : Int) (p₁ : List Msg) (m : Msg)
        (p₂ : List Msg) (rest : List (List Msg)),
        (∀ x ∈ p₁, ¬(x.createdAt < BACKFILL_AFTER)) →
        m.createdAt < BACKFILL_AFTER →
        backfillChannel cfg chanId now ((p₁ ++ m :: p₂) :: rest) =
          (processPage cfg chanId now p₁).1) := by
  constructor
  · intro cfg chanId now pages e he
    exact (backfillChannel_event_msg cfg chanId now pages e he).2
  · intro cfg chanId now p₁ m p₂ rest hall hm
    have hstop := processPage_stops_at_cutoff cfg chanId now p₁ m p₂ hall hm
    have hne : (p₁ ++ m :: p₂).isEmpty = false := by
      cases p₁ <;> rfl
    rw [backfillChannel, hne]
    simp only [Bool.false_eq_true, if_false, hstop]
    simp

/-- C5 witness: a concrete scan where the second message of the first
page is older than the cutoff — only the first message is relocated. -/
theorem c5_witness :
    ({ exMsgGen with createdAt := 1767225599999 } : Msg).createdAt <
      BACKFILL_AFTER ∧
    backfillChannel exCfg "999999999999" 0
      (([{ exMsgGen with createdAt := 1767225600001 },
         { exMsgGen with createdAt := 1767225599999 },
         { exMsgGen with createdAt := 1767225600002 }]) :: [[exMsgGen]]) =
      (processPage exCfg "999999999999" 0
        [{ exMsgGen with createdAt := 1767225600001 }]).1 :=
  ⟨by decide,
   c5_backfill_cutoff.2 exCfg "999999999999" 0
     [{ exMsgGen with createdAt := 1767225600001 }]
     { exMsgGen with createdAt := 1767225599999 }
     [{ exMsgGen with createdAt := 1767225600002 }] [[exMsgGen]]
     (by decide) (by decide)⟩

/-- Un-archiving a thread makes its later lookup non-archived. -/
theorem lookupThread_setArchivedFalse (ts : List (Nat × Bool)) (tid : Nat)
    (h : lookupThread ts tid = some true) :
    lookupThread (setArchivedFalse ts tid) tid = some false := by
  induction ts with
  | nil => simp [lookupThread] at h
  | cons p rest ih =>
    by_cases hp : (p.1 == tid) = true
    · have h1 : setArchivedFalse (p :: rest) tid =
          (p.1, false) :: setArchivedFalse rest tid := by
        simp only [setArchivedFalse, List.map_cons, if_pos hp]
      rw [h1, lookupThread,
        List.find?_cons_of_pos (p := fun q : Nat × Bool => q.1 == tid)
          (a := (p.1, false)) _ hp]
      rfl
    · have h1 : setArchivedFalse (p :: rest) tid =
          p :: setArchivedFalse rest tid := by
        simp only [setArchivedFalse, List.map_cons, if_neg hp]
      have h2 : lookupThread (p :: rest) tid = lookupThread rest tid := by
        rw [lookupThread,
          List.find?_cons_of_neg (p := fun q : Nat × Bool => q.1 == tid) _ hp]
        rfl
      rw [h2] at h
      rw [h1, lookupThread,
        List.find?_cons_of_neg (p := fun q : Nat × Bool => q.1 == tid) _ hp]
      exact ih h

/-- `find?` commutes with a map that preserves the predicate. -/
theorem find?_map_of_pred_invariant (f : WMsg → WMsg)
    (hf : ∀ w, anchorPred (f w) = anchorPred w) :
    ∀ (l : List WMsg), (l.map f).find? anchorPred = (l.find? anchorPred).map f := by
  intro l
  induction l with
  | nil => rfl
  | cons a as ih =>
    by_cases ha : anchorPred a = true
    · have hfa : anchorPred (f a) = true := (hf a).trans ha
      simp [List.find?, ha, hfa]
    · have hfa : anchorPred (f a) = false := by
        rw [hf a]
        exact Bool.eq_false_iff.mpr ha
      simp only [List.map_cons, List.find?, hfa,
        Bool.eq_false_iff.mpr ha]
      exact ih

/-- Looking up a freshly appended thread id. -/
theorem lookupThread_append_fresh (ts : List (Nat × Bool)) (tid : Nat)
    (h : ∀ p ∈ ts, p.1 ≠ tid) :
    lookupThread (ts ++ [(tid, false)]) tid = some false := by
  induction ts with
  | nil => simp [lookupThread, List.find?]
  | cons p rest ih =>
    have hp : (p.1 == tid) = false :=
      beq_eq_false_iff_ne.mpr (h p (List.mem_cons_self p rest))
    simp only [lookupThread, List.cons_append, List.find?, hp]
    exact ih (fun q hq => h q (List.mem_cons_of_mem p hq))

/-- Folding out `getOrCreateLatestThread` on the live-thread branch. -/
theorem getOrCreate_eq_of_live (st : ChannelState) (m : WMsg) (tid : Nat)
    (hfind : st.window.find? anchorPred = some m) (htid : m.threadId = some tid)
    (harch : lookupThread st.threads tid = some false) :
    getOrCreateLatestThread st = (some tid, st) := by
  rw [getOrCreateLatestThread]
  simp only [hfind, htid, harch]

/-- A second call right after a thread creation finds the just-created
thread on the same anchor and returns it unchanged. -/
theorem createThreadOn_stable (st : ChannelState) (m : WMsg)
    (hfresh : ∀ p ∈ st.threads, p.1 < st.nextTid)
    (hfind : st.window.find? anchorPred = some m) :
    getOrCreateLatestThread (createThreadOn st m).2 =
      ((createThreadOn st m).1, (createThreadOn st m).2) := by
  have hf : ∀ w : WMsg, anchorPred
      (if w.id == m.id then { w with threadId := some st.nextTid } else w) =
      anchorPred w := by
    intro w
    by_cases h : (w.id == m.id) = true
    · rw [if_pos h]; rfl
    · rw [if_neg h]
  have hfind2 : ((createThreadOn st m).2).window.find? anchorPred =
      some { m with threadId := some st.nextTid } := by
    show (st.window.map _).find? anchorPred = _
    rw [find?_map_of_pred_invariant _ hf st.window, hfind]
    simp
  have harch2 : lookupThread ((createThreadOn st m).2).threads st.nextTid =
      some false := by
    show lookupThread (st.threads ++ [(st.nextTid, false)]) st.nextTid = _
    exact lookupThread_append_fresh _ _
      (fun p hp => Nat.ne_of_lt (hfresh p hp))
  exact getOrCreate_eq_of_live _ _ st.nextTid hfind2 rfl harch2

/-- C8: `getOrCreateLatestThread` returns `none` exactly when the recent
window holds no bot-authored message with an embed; an anchored live
non-archived thread is returned as-is; an archived one is un-archived
and returned; and with no new summary record a repeated call returns the
same thread handle and leaves the state unchanged. -/
theorem c8_get_or_create_latest_thread (st : ChannelState)
    (hfresh : ∀ p ∈ st.threads, p.1 < st.nextTid) :
    ((getOrCreateLatestThread st).1 = none ↔
      ∀ m ∈ st.window, ¬(m.authorSelf = true ∧ m.embedCount ≠ 0)) ∧
    (∀ m tid, st.window.find? anchorPred = some m → m.threadId = some tid →
      lookupThread st.threads tid = some false →
      getOrCreateLatestThread st = (some tid, st)) ∧
    (∀ m tid, st.window.find? anchorPred = some m → m.threadId = some tid →
      lookupThread st.threads tid = some true →
      (getOrCreateLatestThread st).1 = some tid ∧
      lookupThread (getOrCreateLatestThread st).2.threads tid = some false) ∧
    (getOrCreateLatestThread (getOrCreateLatestThread st).2 =
      ((getOrCreateLatestThread st).1, (getOrCreateLatestThread st).2)) := by
  have hpred : ∀ m : WMsg,
      (anchorPred m = true) ↔ (m.authorSelf = true ∧ m.embedCount ≠ 0) := by
    intro m
    simp [anchorPred]
  refine ⟨?_, ?_, ?_, ?_⟩
  · cases hfind : st.window.find? anchorPred with
    | none =>
      have h1 : getOrCreateLatestThread st = (none, st) := by
        rw [getOrCreateLatestThread]
        simp only [hfind]
      rw [h1]
      simp only [true_iff]
      intro m hm hcontra
      exact (List.find?_eq_none.mp hfind m hm) ((hpred m).mpr hcontra)
    | some m =>
      have hsome : (getOrCreateLatestThread st).1 ≠ none := by
        cases htid : m.threadId with
        | none =>
          have h1 : getOrCreateLatestThread st = createThreadOn st m := by
            rw [getOrCreateLatestThread]
            simp only [hfind, htid]
          rw [h1]
          exact Option.some_ne_none _
        | some tid =>
          cases harch : lookupThread st.threads tid with
          | none =>
            have h1 : getOrCreateLatestThread st = createThreadOn st m := by
              rw [getOrCreateLatestThread]
              simp only [hfind, htid, harch]
            rw [h1]
            exact Option.some_ne_none _
          | some b =>
            cases b with
            | false =>
              rw [getOrCreate_eq_of_live st m tid hfind htid harch]
              exact Option.some_ne_none _
            | true =>
              have h1 : getOrCreateLatestThread st = (some tid,
                  { st with threads := setArchivedFalse st.threads tid }) := by
                rw [getOrCreateLatestThread]
                simp only [hfind, htid, harch]
              rw [h1]
              exact Option.some_ne_none _
      constructor
      · intro hnone
        exact absurd hnone hsome
      · intro hall
        exact absurd ((hpred m).mp (List.find?_some hfind))
          (hall m (List.mem_of_find?_eq_some hfind))
  · intro m tid hfind htid harch
    exact getOrCreate_eq_of_live st m tid hfind htid harch
  · intro m tid hfind htid harch
    have h1 : getOrCreateLatestThread st = (some tid,
        { st with threads := setArchivedFalse st.threads tid }) := by
      rw [getOrCreateLatestThread]
      simp only [hfind, htid, harch]
    rw [h1]
    exact ⟨rfl, lookupThread_setArchivedFalse st.threads tid harch⟩
  · cases hfind : st.window.find? anchorPred with
    | none =>
      have h1 : getOrCreateLatestThread st = (none, st) := by
        rw [getOrCreateLatestThread]
        simp only [hfind]
      rw [h1]
      exact h1
    | some m =>
      cases htid : m.threadId with
      | some tid =>
        cases harch : lookupThread st.threads tid with
        | some b =>
          cases b with
          | false =>
            have h1 := getOrCreate_eq_of_live st m tid hfind htid harch
            rw [h1]
            exact h1
          | true =>
            have h1 : getOrCreateLatestThread st = (some tid,
                { st with threads := setArchivedFalse st.threads tid }) := by
              rw [getOrCreateLatestThread]
              simp only [hfind, htid, harch]
            rw [h1]
            exact getOrCreate_eq_of_live _ m tid hfind htid
              (lookupThread_setArchivedFalse st.threads tid harch)
        | none =>
          have h1 : getOrCreateLatestThread st = createThreadOn st m := by
            rw [getOrCreateLatestThread]
            simp only [hfind, htid, harch]
          rw [h1]
          exact createThreadOn_stable st m hfresh hfind
      | none =>
        have h1 : getOrCreateLatestThread st = createThreadOn st m := by
          rw [getOrCreateLatestThread]
          simp only [hfind, htid]
        rw [h1]
        exact createThreadOn_stable st m hfresh hfind

/-- C8 witness: on a room with one thread-less summary record, the first
call creates thread 9 and the second call returns the same thread and
state. -/
theorem c8_witness :
    (∀ p ∈ exChanAnchored.threads, p.1 < exChanAnchored.nextTid) ∧
    getOrCreateLatestThread (getOrCreateLatestThread exChanAnchored).2 =
      ((getOrCreateLatestThread exChanAnchored).1,
       (getOrCreateLatestThread exChanAnchored).2) :=
  ⟨by simp [exChanAnchored],
   (c8_get_or_create_latest_thread exChanAnchored
     (by simp [exChanAnchored])).2.2.2⟩

/-- The live trace is one of five shapes: nothing, strict interception,
private-room blocking, an aborted or send-less routing pass, or a full
routing pass followed by deletion and one consolidated notice. -/
theorem liveRouter_cases (cfg : Cfg) (chan : ChannelState) (msg : Msg)
    (sendOk : Category → Bool) (now : Int) :
    liveRouter cfg chan msg sendOk now = [] ∨
    (liveRouter cfg chan msg sendOk now = strictBranch chan msg ∧
      isDestinationChannel cfg msg.channelId = true) ∨
    (liveRouter cfg chan msg sendOk now =
      [Event.deleteOriginal, Event.privateWarning msg.channelId 10000] ∧
      containsSub ("-private".data) msg.channelName = true) ∨
    liveRouter cfg chan msg sendOk now =
      (routeLoop cfg msg sendOk (toRoute cfg msg)).events ∨
    (liveRouter cfg chan msg sendOk now =
      (routeLoop cfg msg sendOk (toRoute cfg msg)).events ++
        [Event.deleteOriginal,
         Event.routeNotice msg.channelId
           (routeLoop cfg msg sendOk (toRoute cfg msg)).routed 10000] ∧
      (routeLoop cfg msg sendOk (toRoute cfg msg)).aborted = false) := by
  cases hb : msg.authorBot with
  | true => exact Or.inl (by simp [liveRouter, hb])
  | false =>
  cases hg : msg.inGuild with
  | false => exact Or.inl (by simp [liveRouter, hb, hg])
  | true =>
  cases ht : msg.inThread with
  | true => exact Or.inl (by simp [liveRouter, hb, hg, ht])
  | false =>
  cases hd : isDestinationChannel cfg msg.channelId with
  | true =>
    exact Or.inr (Or.inl ⟨by simp [liveRouter, hb, hg, ht, hd], rfl⟩)
  | false =>
  cases hu : (extractUrls msg.content).isEmpty with
  | true => exact Or.inl (by simp [liveRouter, hb, hg, ht, hd, hu])
  | false =>
  cases hp : containsSub ("-private".data) msg.channelName with
  | true =>
    exact Or.inr (Or.inr (Or.inl
      ⟨by simp [liveRouter, hb, hg, ht, hd, hu, hp], rfl⟩))
  | false =>
  cases htr : (toRoute cfg msg).isEmpty with
  | true => exact Or.inl (by simp [liveRouter, hb, hg, ht, hd, hu, hp, htr])
  | false =>
  cases ha : (routeLoop cfg msg sendOk (toRoute cfg msg)).aborted with
  | true =>
    exact Or.inr (Or.inr (Or.inr (Or.inl
      (by simp [liveRouter, hb, hg, ht, hd, hu, hp, htr, ha]))))
  | false =>
  cases hre : (routeLoop cfg msg sendOk (toRoute cfg msg)).routed.isEmpty with
  | true =>
    exact Or.inr (Or.inr (Or.inr (Or.inl
      (by simp [liveRouter, hb, hg, ht, hd, hu, hp, htr, ha, hre]))))
  | false =>
    exact Or.inr (Or.inr (Or.inr (Or.inr
      ⟨by simp [liveRouter, hb, hg, ht, hd, hu, hp, htr, ha, hre], rfl⟩)))

/-- Every event emitted by the relocation loop is a relocation send. -/
theorem routeLoop_events_sends (cfg : Cfg) (msg : Msg)
    (sendOk : Category → Bool) :
    ∀ (l : List (Category × List (List Char))) (e : Event),
      e ∈ (routeLoop cfg msg sendOk l).events → isSendEmbed e = true := by
  intro l
  induction l with
  | nil => intro e he; simp [routeLoop] at he
  | cons g rest ih =>
    intro e he
    obtain ⟨cat, urls⟩ := g
    rw [routeLoop] at he
    cases hd : destinationChannel cfg cat with
    | none =>
      rw [hd] at he
      exact ih e he
    | some ch =>
      rw [hd] at he
      simp only at he
      by_cases hs : sendOk cat = true
      · rw [if_pos hs] at he
        rcases List.mem_cons.mp he with rfl | he
        · rfl
        · exact ih e he
      · rw [if_neg hs] at he
        simp at he

/-- Embeds sent by the relocation loop carry the message's creation time
as their original-timestamp reference. -/
theorem routeLoop_events_originalDate (cfg : Cfg) (msg : Msg)
    (sendOk : Category → Bool) :
    ∀ (l : List (Category × List (List Char))) (d : String) (emb : Embed),
      Event.sendEmbed d emb ∈ (routeLoop cfg msg sendOk l).events →
      emb.originalDate = some msg.createdAt := by
  intro l
  induction l with
  | nil => intro d emb he; simp [routeLoop] at he
  | cons g rest ih =>
    intro d emb he
    obtain ⟨cat, urls⟩ := g
    rw [routeLoop] at he
    cases hd : destinationChannel cfg cat with
    | none =>
      rw [hd] at he
      exact ih d emb he
    | some ch =>
      rw [hd] at he
      simp only at he
      by_cases hs : sendOk cat = true
      · rw [if_pos hs] at he
        rcases List.mem_cons.mp he with heq | he
        · cases heq
          rfl
        · exact ih d emb he
      · rw [if_neg hs] at he
        simp at he

/-- If some group of the list has a resolved destination and a failing
send, the loop ends aborted. -/
theorem routeLoop_aborted_of_fail (cfg : Cfg) (msg : Msg)
    (sendOk : Category → Bool) :
    ∀ (l : List (Category × List (List Char))) (cat : Category)
      (urls : List (List Char)) (ch : Channel),
      (cat, urls) ∈ l → destinationChannel cfg cat = some ch →
      sendOk cat = false →
      (routeLoop cfg msg sendOk l).aborted = true := by
  intro l
  induction l with
  | nil => intro cat urls ch hm; simp at hm
  | cons g rest ih =>
    intro cat urls ch hm hch hfail
    obtain ⟨cat', urls'⟩ := g
    rcases List.mem_cons.mp hm with heq | hm
    · cases heq
      rw [routeLoop, hch]
      simp only
      rw [if_neg (by rw [hfail]; exact Bool.false_ne_true)]
    · rw [routeLoop]
      cases hd : destinationChannel cfg cat' with
      | none => exact ih cat urls ch hm hch hfail
      | some ch' =>
        simp only
        by_cases hs : sendOk cat' = true
        · rw [if_pos hs]
          exact ih cat urls ch hm hch hfail
        · rw [if_neg hs]

/-- A list of relocation sends alone never places a send after a
deletion (there is no deletion in it at all). -/
theorem noSendAfterDel_of_sends :
    ∀ (l : List Event), (∀ e ∈ l, isSendEmbed e = true) →
      noSendAfterDel l = true := by
  intro l
  induction l with
  | nil => intro _; rfl
  | cons e rest ih =>
    intro h
    have he := h e (List.mem_cons_self e rest)
    have hrest := fun x hx => h x (List.mem_cons_of_mem e hx)
    cases e with
    | sendEmbed d emb => exact ih hrest
    | deleteOriginal => simp [isSendEmbed] at he
    | repostInThread a b c d => simp [isSendEmbed] at he
    | redirectNotice a b => simp [isSendEmbed] at he
    | noThreadNotice a b => simp [isSendEmbed] at he
    | privateWarning a b => simp [isSendEmbed] at he
    | routeNotice a b c => simp [isSendEmbed] at he

/-- Relocation sends followed by the deletion and the consolidated
notice never place a send after the deletion. -/
theorem noSendAfterDel_sends_append (c : String)
    (entries : List (Category × String)) (t : Nat) :
    ∀ (l : List Event), (∀ e ∈ l, isSendEmbed e = true) →
      noSendAfterDel
        (l ++ [Event.deleteOriginal, Event.routeNotice c entries t]) = true := by
  intro l
  induction l with
  | nil => intro _; rfl
  | cons e rest ih =>
    intro h
    have he := h e (List.mem_cons_self e rest)
    have hrest := fun x hx => h x (List.mem_cons_of_mem e hx)
    cases e with
    | sendEmbed d emb => exact ih hrest
    | deleteOriginal => simp [isSendEmbed] at he
    | repostInThread a b c d => simp [isSendEmbed] at he
    | redirectNotice a b => simp [isSendEmbed] at he
    | noThreadNotice a b => simp [isSendEmbed] at he
    | privateWarning a b => simp [isSendEmbed] at he
    | routeNotice a b c => simp [isSendEmbed] at he

/-- The strict branch contains no relocation send, so it never places a
send after its deletion. -/
theorem noSendAfterDel_strict (chan : ChannelState) (msg : Msg) :
    noSendAfterDel (strictBranch chan msg) = true := by
  rw [strictBranch]
  cases hgc : (getOrCreateLatestThread chan).1 <;> rfl

/-- C2: relocation sends always precede the deletion of the original in
any live trace, and if any applicable relocation send fails, the
original message is never deleted (earlier groups may already have been
relocated, and the original remains). -/
theorem c2_sends_before_delete :
    (∀ (cfg : Cfg) (chan : ChannelState) (msg : Msg)
        (sendOk : Category → Bool) (now : Int),
        noSendAfterDel (liveRouter cfg chan msg sendOk now) = true) ∧
    (∀ (cfg : Cfg) (chan : ChannelState) (msg : Msg)
        (sendOk : Category → Bool) (now : Int) (cat : Category)
        (urls : List (List Char)) (ch : Channel),
        isDestinationChannel cfg msg.channelId = false →
        containsSub ("-private".data) msg.channelName = false →
        (cat, urls) ∈ toRoute cfg msg →
        destinationChannel cfg cat = some ch →
        sendOk cat = false →
        Event.deleteOriginal ∉ liveRouter cfg chan msg sendOk now) := by
  constructor
  · intro cfg chan msg sendOk now
    rcases liveRouter_cases cfg chan msg sendOk now with
      h | ⟨h, _⟩ | ⟨h, _⟩ | h | ⟨h, _⟩ <;> rw [h]
    · rfl
    · exact noSendAfterDel_strict chan msg
    · rfl
    · exact noSendAfterDel_of_sends _
        (routeLoop_events_sends cfg msg sendOk (toRoute cfg msg))
    · exact noSendAfterDel_sends_append _ _ _ _
        (routeLoop_events_sends cfg msg sendOk (toRoute cfg msg))
  · intro cfg chan msg sendOk now cat urls ch hdest hpriv hmem hch hfail
    have habort := routeLoop_aborted_of_fail cfg msg sendOk (toRoute cfg msg)
      cat urls ch hmem hch hfail
    have hnotdel : Event.deleteOriginal ∉
        (routeLoop cfg msg sendOk (toRoute cfg msg)).events := by
      intro hin
      have := routeLoop_events_sends cfg msg sendOk (toRoute cfg msg) _ hin
      simp [isSendEmbed] at this
    rcases liveRouter_cases cfg chan msg sendOk now with
      h | ⟨_, hd⟩ | ⟨_, hp⟩ | h | ⟨_, hab⟩
    · rw [h]
      exact List.not_mem_nil _
    · rw [hdest] at hd
      exact absurd hd Bool.false_ne_true
    · rw [hpriv] at hp
      exact absurd hp Bool.false_ne_true
    · rw [h]
      exact hnotdel
    · rw [habort] at hab
      exact Bool.noConfusion hab

/-- C2 witness: a concrete message mixing links, whose Steam send fails —
the original is not deleted. -/
theorem c2_witness :
    Event.deleteOriginal ∉
      liveRouter exCfg exChanEmpty exMsgGen
        (fun c => c != Category.steam) 0 :=
  c2_sends_before_delete.2 exCfg exChanEmpty exMsgGen
    (fun c => c != Category.steam) 0 Category.steam
    ["https://store.steampowered.com/app/9".data]
    ⟨"222222222222", "games".data, .text⟩
    (by decide) (by decide) (by decide) (by decide) (by decide)

/-- A member satisfying the anchor predicate forces `find?` to succeed. -/
theorem exists_anchor_find (l : List WMsg) :
    ∀ (m : WMsg), m ∈ l → anchorPred m = true →
      ∃ m', l.find? anchorPred = some m' := by
  induction l with
  | nil => intro m hm; simp at hm
  | cons a as ih =>
    intro m hm hp
    by_cases ha : anchorPred a = true
    · exact ⟨a, List.find?_cons_of_pos as ha⟩
    · rcases List.mem_cons.mp hm with rfl | hm
      · exact absurd hp ha
      · obtain ⟨m', hm'⟩ := ih m hm hp
        exact ⟨m', by rw [List.find?_cons_of_neg as ha]; exact hm'⟩

/-- When an anchor exists, the consolidator returns some thread. -/
theorem getOrCreate_fst_of_find (st : ChannelState) (m : WMsg)
    (hfind : st.window.find? anchorPred = some m) :
    ∃ tid, (getOrCreateLatestThread st).1 = some tid := by
  cases htid : m.threadId with
  | none =>
    refine ⟨st.nextTid, ?_⟩
    rw [getOrCreateLatestThread]
    simp only [hfind, htid]
    rfl
  | some tid =>
    cases harch : lookupThread st.threads tid with
    | none =>
      refine ⟨st.nextTid, ?_⟩
      rw [getOrCreateLatestThread]
      simp only [hfind, htid, harch]
      rfl
    | some b =>
      cases b with
      | false =>
        refine ⟨tid, ?_⟩
        rw [getOrCreateLatestThread]
        simp only [hfind, htid, harch]
      | true =>
        refine ⟨tid, ?_⟩
        rw [getOrCreateLatestThread]
        simp only [hfind, htid, harch]

/-- C3: a non-bot, non-thread guild message arriving in a designated
destination room is deleted; if an engine-authored summary record exists
in the recent window the content and attachments are reposted in the
active thread attributed to the author together with a 10 s redirect
notice, and otherwise only a 15 s informational notice follows. -/
theorem c3_strict_enforcement (cfg : Cfg) (chan : ChannelState) (msg : Msg)
    (sendOk : Category → Bool) (now : Int)
    (hb : msg.authorBot = false) (hg : msg.inGuild = true)
    (ht : msg.inThread = false)
    (hd : isDestinationChannel cfg msg.channelId = true) :
    Event.deleteOriginal ∈ liveRouter cfg chan msg sendOk now ∧
    ((∃ m ∈ chan.window, anchorPred m = true) →
      ∃ tid, liveRouter cfg chan msg sendOk now =
        [Event.deleteOriginal,
         Event.repostInThread tid (authorDisplay msg.author) msg.content
           msg.attachments,
         Event.redirectNotice msg.channelId 10000]) ∧
    ((∀ m ∈ chan.window, anchorPred m = false) →
      liveRouter cfg chan msg sendOk now =
        [Event.deleteOriginal, Event.noThreadNotice msg.channelId 15000]) := by
  have hL : liveRouter cfg chan msg sendOk now = strictBranch chan msg := by
    simp [liveRouter, hb, hg, ht, hd]
  refine ⟨?_, ?_, ?_⟩
  · rw [hL, strictBranch]
    exact List.mem_cons_self _ _
  · rintro ⟨m, hm, hp⟩
    obtain ⟨m', hfind⟩ := exists_anchor_find chan.window m hm hp
    obtain ⟨tid, htid⟩ := getOrCreate_fst_of_find chan m' hfind
    refine ⟨tid, ?_⟩
    rw [hL, strictBranch, htid]
  · intro hall
    have hfind : chan.window.find? anchorPred = none :=
      List.find?_eq_none.mpr
        (fun x hx => by rw [hall x hx]; exact Bool.false_ne_true)
    have h1 : (getOrCreateLatestThread chan).1 = none := by
      rw [getOrCreateLatestThread]
      simp only [hfind]
    rw [hL, strictBranch, h1]

/-- C3 witness: a plain message in the YouTube destination room with one
anchored summary record is deleted and redirected to its new thread. -/
theorem c3_witness :
    Event.deleteOriginal ∈
      liveRouter exCfg exChanAnchored exMsgDest (fun _ => true) 0 ∧
    (∃ tid, liveRouter exCfg exChanAnchored exMsgDest (fun _ => true) 0 =
      [Event.deleteOriginal,
       Event.repostInThread tid (authorDisplay exMsgDest.author)
         exMsgDest.content exMsgDest.attachments,
       Event.redirectNotice exMsgDest.channelId 10000]) :=
  ⟨(c3_strict_enforcement exCfg exChanAnchored exMsgDest (fun _ => true) 0
      rfl rfl rfl (by decide)).1,
   (c3_strict_enforcement exCfg exChanAnchored exMsgDest (fun _ => true) 0
      rfl rfl rfl (by decide)).2.1
     ⟨⟨4, true, 1, none⟩, by decide, rfl⟩⟩

/-- The strict branch sends no summary-record relocation. -/
theorem strictBranch_no_sendEmbed (chan : ChannelState) (msg : Msg) :
    ∀ e ∈ strictBranch chan msg, isSendEmbed e = false := by
  intro e he
  rw [strictBranch] at he
  cases hgc : (getOrCreateLatestThread chan).1 with
  | some tid =>
    rw [hgc] at he
    simp only [List.mem_cons, List.not_mem_nil, or_false] at he
    rcases he with rfl | rfl | rfl <;> rfl
  | none =>
    rw [hgc] at he
    simp only [List.mem_cons, List.not_mem_nil, or_false] at he
    rcases he with rfl | rfl <;> rfl

/-- Inserting into a group list never empties it. -/
theorem insertGroup_ne_nil (acc : List (Category × List (List Char)))
    (cat : Category) (url : List Char) : insertGroup acc cat url ≠ [] := by
  rw [insertGroup]
  by_cases h : acc.any (fun g => g.1 == cat) = true
  · rw [if_pos h]
    intro hmap
    rw [List.map_eq_nil_iff] at hmap
    rw [hmap] at h
    simp at h
  · rw [if_neg h]
    intro happ
    exact List.cons_ne_nil _ _ (List.append_eq_nil.mp happ).2

/-- Grouping a nonempty URL list yields a nonempty group list. -/
theorem groupByCategory_ne_nil (urls : List (List Char)) (h : urls ≠ []) :
    groupByCategory urls ≠ [] := by
  have hstep : ∀ (us : List (List Char))
      (acc : List (Category × List (List Char))), acc ≠ [] →
      us.foldl (fun a url => insertGroup a (categorizeUrl url) url) acc ≠ [] := by
    intro us
    induction us with
    | nil => intro acc hacc; exact hacc
    | cons u us ih =>
      intro acc _
      exact ih (insertGroup acc (categorizeUrl u) u)
        (insertGroup_ne_nil acc (categorizeUrl u) u)
  cases urls with
  | nil => exact absurd rfl h
  | cons u us =>
    rw [groupByCategory]
    exact hstep us (insertGroup [] (categorizeUrl u) u)
      (insertGroup_ne_nil [] (categorizeUrl u) u)

/-- A category whose configured destination id is `id` makes `id` a
destination channel. -/
theorem isDest_of_getDestinationId (cfg : Cfg) (cat : Category) (id : String)
    (h : getDestinationId cfg cat = id) :
    isDestinationChannel cfg id = true := by
  cases cat <;> simp [isDestinationChannel, ← h, getDestinationId]

/-- C6 counterexample: a message whose only link already belongs to its
current room (the YouTube destination room) is nevertheless deleted by
the strict-mode branch — not a zero-deletion no-op. -/
theorem c6_counterexample :
    ((groupByCategory (extractUrls exMsgDest.content)).all
      (fun g => getDestinationId exCfg g.1 == exMsgDest.channelId) = true) ∧
    (groupByCategory (extractUrls exMsgDest.content)).isEmpty = false ∧
    Event.deleteOriginal ∈
      liveRouter exCfg exChanEmpty exMsgDest (fun _ => true) 0 := by
  refine ⟨by decide, by decide, by decide⟩

/-- C6 amended: a message whose extracted links all resolve to its
current room necessarily sits in a destination room, so the live router
intercepts it in strict mode: no summary-record relocation send occurs,
but the original message is deleted (and redirected), not left
unmodified. -/
theorem c6_local_links_strict_intercept (cfg : Cfg) (chan : ChannelState)
    (msg : Msg) (sendOk : Category → Bool) (now : Int)
    (hb : msg.authorBot = false) (hg : msg.inGuild = true)
    (ht : msg.inThread = false)
    (hurls : (extractUrls msg.content) ≠ [])
    (hall : ∀ g ∈ groupByCategory (extractUrls msg.content),
        getDestinationId cfg g.1 = msg.channelId) :
    isDestinationChannel cfg msg.channelId = true ∧
    (∀ e ∈ liveRouter cfg chan msg sendOk now, isSendEmbed e = false) ∧
    Event.deleteOriginal ∈ liveRouter cfg chan msg sendOk now := by
  obtain ⟨g0, hg0⟩ :=
    List.exists_mem_of_ne_nil _ (groupByCategory_ne_nil _ hurls)
  have hd : isDestinationChannel cfg msg.channelId = true :=
    isDest_of_getDestinationId cfg g0.1 msg.channelId (hall g0 hg0)
  have hL : liveRouter cfg chan msg sendOk now = strictBranch chan msg := by
    simp [liveRouter, hb, hg, ht, hd]
  refine ⟨hd, ?_, ?_⟩
  · rw [hL]
    exact strictBranch_no_sendEmbed chan msg
  · rw [hL, strictBranch]
    exact List.mem_cons_self _ _

/-- C6 witness: the amended statement at the concrete counterexample
input. -/
theorem c6_witness :
    isDestinationChannel exCfg exMsgDest.channelId = true ∧
    Event.deleteOriginal ∈
      liveRouter exCfg exChanEmpty exMsgDest (fun _ => true) 0 :=
  ⟨(c6_local_links_strict_intercept exCfg exChanEmpty exMsgDest
      (fun _ => true) 0 rfl rfl rfl (by decide) (by decide)).1,
   (c6_local_links_strict_intercept exCfg exChanEmpty exMsgDest
      (fun _ => true) 0 rfl rfl rfl (by decide) (by decide)).2.2⟩

/-- The strict branch emits no embeds. -/
theorem sendEmbeds_strict (chan : ChannelState) (msg : Msg) :
    sendEmbeds (strictBranch chan msg) = [] := by
  rw [strictBranch]
  cases hgc : (getOrCreateLatestThread chan).1 <;> rfl

/-- C7 counterexample: a live-routed (non-backfill) message produces
summary records that do carry the original-timestamp reference — both
relocation embeds of a concrete live message have
`originalDate = some 42`, not `none`. -/
theorem c7_counterexample :
    (sendEmbeds (liveRouter exCfg exChanEmpty exMsgGen (fun _ => true) 0)).map
        Embed.originalDate = [some 42, some 42] ∧
    sendEmbeds (liveRouter exCfg exChanEmpty exMsgGen (fun _ => true) 0) ≠
      [] := by
  refine ⟨by decide, by decide⟩

/-- C7 amended: the composer's display timestamp is the supplied original
timestamp when one is given and the current time otherwise, and the
original-timestamp reference is present exactly when a timestamp is
supplied — but the live router supplies the message's creation time too,
so every live-routed summary record carries the original-timestamp
reference (`some msg.createdAt`), not only backfilled ones. -/
theorem c7_embed_timestamps :
    (∀ (cat : Category) (urls : List (List Char)) (u : User)
        (src : Option String) (t now : Int),
        (buildLinkEmbed cat urls u src (some t) now).timestamp = t ∧
        (buildLinkEmbed cat urls u src none now).timestamp = now ∧
        (buildLinkEmbed cat urls u src (some t) now).originalDate = some t ∧
        (buildLinkEmbed cat urls u src none now).originalDate = none) ∧
    (∀ (cfg : Cfg) (chan : ChannelState) (msg : Msg)
        (sendOk : Category → Bool) (now : Int) (emb : Embed),
        emb ∈ sendEmbeds (liveRouter cfg chan msg sendOk now) →
        emb.originalDate = some msg.createdAt) := by
  constructor
  · intro cat urls u src t now
    exact ⟨rfl, rfl, rfl, rfl⟩
  · intro cfg chan msg sendOk now emb he
    have hloop : ∀ emb' ∈ sendEmbeds
        (routeLoop cfg msg sendOk (toRoute cfg msg)).events,
        Embed.originalDate emb' = some msg.createdAt := by
      intro emb' he'
      obtain ⟨a, ha, hfa⟩ := List.mem_filterMap.mp he'
      cases a with
      | sendEmbed d e0 =>
        have : e0 = emb' := by
          simpa using hfa
        subst this
        exact routeLoop_events_originalDate cfg msg sendOk
          (toRoute cfg msg) d e0 ha
      | deleteOriginal => simp at hfa
      | repostInThread a b c d => simp at hfa
      | redirectNotice a b => simp at hfa
      | noThreadNotice a b => simp at hfa
      | privateWarning a b => simp at hfa
      | routeNotice a b c => simp at hfa
    rcases liveRouter_cases cfg chan msg sendOk now with
      h | ⟨h, _⟩ | ⟨h, _⟩ | h | ⟨h, _⟩ <;> rw [h] at he
    · simp [sendEmbeds] at he
    · rw [sendEmbeds_strict] at he
      simp at he
    · simp [sendEmbeds] at he
    · exact hloop emb he
    · rw [sendEmbeds, List.filterMap_append] at he
      rcases List.mem_append.mp he with he | he
      · exact hloop emb he
      · simp at he

/-- C7 witness: the composer instances at concrete inputs, and the first
live relocation embed of a concrete message carrying its creation time. -/
theorem c7_witness :
    (buildLinkEmbed Category.youtube [] exUser none (some 7) 9).timestamp = 7 ∧
    (buildLinkEmbed Category.youtube [] exUser none none 9).timestamp = 9 ∧
    (buildLinkEmbed Category.youtube ["https://youtu.be/a".data] exUser
        (some "999999999999") (some 42) 42).originalDate =
      some exMsgGen.createdAt :=
  ⟨(c7_embed_timestamps.1 Category.youtube [] exUser none 7 9).1,
   (c7_embed_timestamps.1 Category.youtube [] exUser none 7 9).2.1,
   c7_embed_timestamps.2 exCfg exChanEmpty exMsgGen (fun _ => true) 0
     (buildLinkEmbed Category.youtube ["https://youtu.be/a".data] exUser
       (some "999999999999") (some 42) 42) (by decide)⟩

/-! ### C1: destination-registry resolution -/

/-- Setting a destination cache slot does not change the env ids. -/
theorem getDestinationId_setDest (st : Cfg) (cat cat' : Category)
    (ch : Channel) :
    getDestinationId (setDest st cat ch) cat' = getDestinationId st cat' := by
  cases cat <;> cases cat' <;> rfl

/-- Reading back a just-written env id. -/
theorem getDestinationId_setEnvId_self (st : Cfg) (cat : Category)
    (id : String) : getDestinationId (setEnvId st cat id) cat = id := by
  cases cat <;> rfl

/-- Reading back a just-written cache slot. -/
theorem destinationChannel_setDest_self (st : Cfg) (cat : Category)
    (ch : Channel) : destinationChannel (setDest st cat ch) cat = some ch := by
  cases cat <;> rfl

/-- Writing a cache slot that already holds the value is the identity. -/
theorem setDest_eq_self (st : Cfg) (cat : Category) (ch : Channel)
    (h : destinationChannel st cat = some ch) : setDest st cat ch = st := by
  cases cat <;> cases st <;> simp_all [setDest, destinationChannel]

/-- Writing an env id that already holds the value is the identity. -/
theorem setEnvId_eq_self (st : Cfg) (cat : Category) (id : String)
    (h : getDestinationId st cat = id) : setEnvId st cat id = st := by
  cases cat <;> cases st <;> simp_all [setEnvId, getDestinationId]

/-- `find?` skips a prefix on which the predicate is everywhere false. -/
theorem find?_append_of_all_false (p : Channel → Bool) :
    ∀ (l₁ l₂ : List Channel), (∀ y ∈ l₁, p y = false) →
      (l₁ ++ l₂).find? p = l₂.find? p := by
  intro l₁
  induction l₁ with
  | nil => intro l₂ _; rfl
  | cons a l ih =>
    intro l₂ hall
    have ha : p a = false := hall a (List.mem_cons_self a l)
    rw [List.cons_append,
      List.find?_cons_of_neg _ (by rw [ha]; exact Bool.false_ne_true)]
    exact ih l₂ (fun y hy => hall y (List.mem_cons_of_mem a hy))

/-- With channel ids unique in the cache, looking a member channel up by
its own id finds exactly it. -/
theorem find?_by_id_of_nodup :
    ∀ (l : List Channel) (ch : Channel),
      (l.map Channel.id).Nodup → ch ∈ l →
      l.find? (fun c => c.id == ch.id) = some ch := by
  intro l
  induction l with
  | nil => intro ch _ hmem; simp at hmem
  | cons a rest ih =>
    intro ch hnd hmem
    have hsplit : (∀ x ∈ rest, ¬x.id = a.id) ∧
        (rest.map Channel.id).Nodup := by
      simpa using hnd
    obtain ⟨hnotin, hnd'⟩ := hsplit
    rcases List.mem_cons.mp hmem with rfl | hmem
    · exact List.find?_cons_of_pos _ (by simp)
    · have hne : (a.id == ch.id) = false := by
        apply beq_eq_false_iff_ne.mpr
        intro he
        exact hnotin ch hmem he.symm
      rw [List.find?_cons_of_neg _ (by rw [hne]; exact Bool.false_ne_true)]
      exact ih ch hnd' hmem

/-- First guild of the C1 counterexample: its configured YouTube room
has a custom name. -/
def c1g1 : Guild := ⟨[⟨"aaaaaaaaaaaaaaaaa", "my-videos".data, .text⟩]⟩

/-- Second guild of the C1 counterexample: empty. -/
def c1g2 : Guild := ⟨[]⟩

/-- Startup configuration of the C1 counterexample: the YouTube room id
points at the room of the first guild. -/
def c1st0 : Cfg := ⟨"aaaaaaaaaaaaaaaaa", "", "", none, none, none⟩

/-- C1 counterexample: destination bindings are held in one global slot
per category, not keyed by (community, category) — resolving YouTube for
community 1, then for community 2 (which overwrites the shared binding),
then again for community 1 returns a different room than the first call
for the same (community, category) pair, because the name-fallback
creates a fresh `youtube` room instead of returning the configured one. -/
theorem c1_counterexample :
    (ensureChannel c1st0 c1g1 .youtube "f1-fresh").1.id =
      "aaaaaaaaaaaaaaaaa" ∧
    (ensureChannel
        (ensureChannel
          (ensureChannel c1st0 c1g1 .youtube "f1-fresh").2.1
          c1g2 .youtube "bbbbbbbbbbbbbbbbb").2.1
        (ensureChannel c1st0 c1g1 .youtube "f1-fresh").2.2
        .youtube "ccccccccccccccccc").1.id = "ccccccccccccccccc" ∧
    (ensureChannel
        (ensureChannel
          (ensureChannel c1st0 c1g1 .youtube "f1-fresh").2.1
          c1g2 .youtube "bbbbbbbbbbbbbbbbb").2.1
        (ensureChannel c1st0 c1g1 .youtube "f1-fresh").2.2
        .youtube "ccccccccccccccccc").1 ≠
      (ensureChannel c1st0 c1g1 .youtube "f1-fresh").1 := by
  refine ⟨by decide, by decide, by decide⟩

/-- Branch equation: a configured id that resolves in the guild cache. -/
theorem ensureChannel_env_found (st : Cfg) (g : Guild) (cat : Category)
    (f : String) (ex : Channel)
    (henv : 10 < (getDestinationId st cat).length)
    (hfind : g.channels.find?
      (fun ch => ch.id == getDestinationId st cat) = some ex) :
    ensureChannel st g cat f = (ex, setDest st cat ex, g) := by
  simp only [ensureChannel]
  rw [if_pos henv, hfind]

/-- Branch equation: a configured id that does not resolve. -/
theorem ensureChannel_env_stale (st : Cfg) (g : Guild) (cat : Category)
    (f : String)
    (henv : 10 < (getDestinationId st cat).length)
    (hfind : g.channels.find?
      (fun ch => ch.id == getDestinationId st cat) = none) :
    ensureChannel st g cat f = fallbackResolve st g cat f := by
  simp only [ensureChannel]
  rw [if_pos henv, hfind]

/-- Branch equation: no usable configured id. -/
theorem ensureChannel_no_env (st : Cfg) (g : Guild) (cat : Category)
    (f : String) (henv : ¬(10 < (getDestinationId st cat).length)) :
    ensureChannel st g cat f = fallbackResolve st g cat f := by
  simp only [ensureChannel]
  rw [if_neg henv]

/-- Branch equation: the fallback finds a channel by preferred name. -/
theorem fallbackResolve_by_name (st : Cfg) (g : Guild) (cat : Category)
    (f : String) (byName : Channel)
    (hby : g.channels.find?
      (fun ch => ch.name == (CATEGORIES cat).channelName &&
        ch.ctype == ChanType.text) = some byName) :
    fallbackResolve st g cat f =
      (byName, setDest (setEnvId st cat byName.id) cat byName, g) := by
  rw [fallbackResolve, hby]

/-- Branch equation: the fallback creates a fresh channel. -/
theorem fallbackResolve_create (st : Cfg) (g : Guild) (cat : Category)
    (f : String)
    (hby : g.channels.find?
      (fun ch => ch.name == (CATEGORIES cat).channelName &&
        ch.ctype == ChanType.text) = none) :
    fallbackResolve st g cat f =
      (mkChannel f cat,
       setDest (setEnvId st cat f) cat (mkChannel f cat),
       ⟨g.channels ++ [mkChannel f cat]⟩) := by
  rw [fallbackResolve, hby]

/-- A second `ensureChannel` call for the same guild right after a
fallback resolution returns the fallback's channel and changes
nothing. -/
theorem fallbackResolve_stable (st : Cfg) (g : Guild) (cat : Category)
    (f1 f2 : String)
    (hnd : (g.channels.map Channel.id).Nodup)
    (hf : f1 ∉ g.channels.map Channel.id) :
    ensureChannel (fallbackResolve st g cat f1).2.1
        (fallbackResolve st g cat f1).2.2 cat f2 =
      fallbackResolve st g cat f1 := by
  cases hby : g.channels.find?
      (fun ch => ch.name == (CATEGORIES cat).channelName &&
        ch.ctype == ChanType.text) with
  | some byName =>
    rw [fallbackResolve_by_name st g cat f1 byName hby]
    show ensureChannel (setDest (setEnvId st cat byName.id) cat byName) g
      cat f2 = _
    have henv1 : getDestinationId
        (setDest (setEnvId st cat byName.id) cat byName) cat = byName.id := by
      rw [getDestinationId_setDest, getDestinationId_setEnvId_self]
    have hdest1 : destinationChannel
        (setDest (setEnvId st cat byName.id) cat byName) cat = some byName :=
      destinationChannel_setDest_self _ cat byName
    have hmem : byName ∈ g.channels := List.mem_of_find?_eq_some hby
    by_cases henv2 : 10 < (getDestinationId
        (setDest (setEnvId st cat byName.id) cat byName) cat).length
    · have hfind2 : g.channels.find? (fun ch => ch.id == getDestinationId
          (setDest (setEnvId st cat byName.id) cat byName) cat) =
          some byName := by
        rw [henv1]
        exact find?_by_id_of_nodup g.channels byName hnd hmem
      rw [ensureChannel_env_found _ g cat f2 byName henv2 hfind2,
        setDest_eq_self _ cat byName hdest1]
    · rw [ensureChannel_no_env _ g cat f2 henv2,
        fallbackResolve_by_name _ g cat f2 byName hby,
        setEnvId_eq_self _ cat byName.id henv1,
        setDest_eq_self _ cat byName hdest1]
  | none =>
    rw [fallbackResolve_create st g cat f1 hby]
    show ensureChannel
      (setDest (setEnvId st cat f1) cat (mkChannel f1 cat))
      ⟨g.channels ++ [mkChannel f1 cat]⟩ cat f2 = _
    have henv1 : getDestinationId
        (setDest (setEnvId st cat f1) cat (mkChannel f1 cat)) cat = f1 := by
      rw [getDestinationId_setDest, getDestinationId_setEnvId_self]
    have hdest1 : destinationChannel
        (setDest (setEnvId st cat f1) cat (mkChannel f1 cat)) cat =
        some (mkChannel f1 cat) :=
      destinationChannel_setDest_self _ cat _
    have hgood : ∀ y ∈ g.channels, (y.id == f1) = false := by
      intro y hy
      exact beq_eq_false_iff_ne.mpr
        (fun he => hf (he ▸ List.mem_map_of_mem Channel.id hy))
    by_cases henv2 : 10 < (getDestinationId
        (setDest (setEnvId st cat f1) cat (mkChannel f1 cat)) cat).length
    · have hfind2 : (g.channels ++ [mkChannel f1 cat]).find?
          (fun ch => ch.id == getDestinationId
            (setDest (setEnvId st cat f1) cat (mkChannel f1 cat)) cat) =
          some (mkChannel f1 cat) := by
        rw [henv1, find?_append_of_all_false _ g.channels _ hgood]
        exact List.find?_cons_of_pos _ (by simp [mkChannel])
      rw [ensureChannel_env_found _ _ cat f2 _ henv2 hfind2,
        setDest_eq_self _ cat _ hdest1]
    · have hnall : ∀ y ∈ g.channels,
          (y.name == (CATEGORIES cat).channelName &&
            y.ctype == ChanType.text) = false := by
        intro y hy
        exact Bool.eq_false_iff.mpr (List.find?_eq_none.mp hby y hy)
      have hby2 : ((⟨g.channels ++ [mkChannel f1 cat]⟩ : Guild)).channels.find?
          (fun ch => ch.name == (CATEGORIES cat).channelName &&
            ch.ctype == ChanType.text) =
          some (mkChannel f1 cat) := by
        show (g.channels ++ [mkChannel f1 cat]).find? _ = _
        rw [find?_append_of_all_false _ g.channels _ hnall]
        exact List.find?_cons_of_pos _ (by simp [mkChannel])
      rw [ensureChannel_no_env _ _ cat f2 henv2]
      rw [fallbackResolve_by_name _ _ cat f2 _ hby2,
        setEnvId_eq_self _ cat (mkChannel f1 cat).id henv1,
        setDest_eq_self _ cat _ hdest1]

/-- C1 amended: `ensureChannel`'s binding lives in one process-global
slot per category (not per community): within a single community,
repeated resolution is idempotent — the second call returns the same
room and changes neither the configuration nor the guild — but across
communities the slot is shared, so a second community's call overwrites
the first community's binding. -/
theorem c1_ensure_idempotent_single_community (st : Cfg) (g : Guild)
    (cat : Category) (f1 f2 : String)
    (hnd : (g.channels.map Channel.id).Nodup)
    (hf : f1 ∉ g.channels.map Channel.id) :
    ensureChannel (ensureChannel st g cat f1).2.1
        (ensureChannel st g cat f1).2.2 cat f2 =
      ensureChannel st g cat f1 := by
  by_cases henv : 10 < (getDestinationId st cat).length
  · cases hfind : g.channels.find?
        (fun ch => ch.id == getDestinationId st cat) with
    | some ex =>
      rw [ensureChannel_env_found st g cat f1 ex henv hfind]
      show ensureChannel (setDest st cat ex) g cat f2 = _
      have henv2 : 10 < (getDestinationId (setDest st cat ex) cat).length := by
        rw [getDestinationId_setDest]
        exact henv
      have hfind2 : g.channels.find?
          (fun ch => ch.id == getDestinationId (setDest st cat ex) cat) =
          some ex := by
        rw [getDestinationId_setDest]
        exact hfind
      rw [ensureChannel_env_found _ g cat f2 ex henv2 hfind2,
        setDest_eq_self _ cat ex (destinationChannel_setDest_self st cat ex)]
    | none =>
      rw [ensureChannel_env_stale st g cat f1 henv hfind]
      exact fallbackResolve_stable st g cat f1 f2 hnd hf
  · rw [ensureChannel_no_env st g cat f1 henv]
    exact fallbackResolve_stable st g cat f1 f2 hnd hf

/-- C1 witness: resolving YouTube twice in an empty guild creates the
room once and then finds it again, changing nothing. -/
theorem c1_witness :
    ((⟨[]⟩ : Guild).channels.map Channel.id).Nodup ∧
    ensureChannel (ensureChannel exCfgEmpty ⟨[]⟩ .youtube "yt-room-00001").2.1
        (ensureChannel exCfgEmpty ⟨[]⟩ .youtube "yt-room-00001").2.2
        .youtube "yt-room-00002" =
      ensureChannel exCfgEmpty ⟨[]⟩ .youtube "yt-room-00001" :=
  ⟨by decide,
   c1_ensure_idempotent_single_community exCfgEmpty ⟨[]⟩ .youtube
     "yt-room-00001" "yt-room-00002" (by decide) (by decide)⟩

end LinkBot
